import Mathlib

set_option maxHeartbeats 1000000

/-!
Shallow embedding of the darts scorekeeper state engine from
src/state.ts and src/models.ts. JS numbers holding integer values are
modelled as Int; array indices as Nat; nullable fields as Option. The
module-level mutable counter nextTurnId is threaded through an explicit
EngineState record. A JS execution that would dereference undefined
(players[currentPlayerIndex] when the index is out of range) or produce
NaN scores (a record lookup of a missing player id during replay) is
modelled as returning none.
-/

namespace Darts

/-- Player record from models.ts. -/
structure Player where
  id : Int
  name : String
  legsWon : Int
deriving DecidableEq

/-- Turn record from models.ts. -/
structure Turn where
  id : Int
  playerId : Int
  points : Int
  runningScore : Int
deriving DecidableEq

/-- Leg record from models.ts. -/
structure LegState where
  legNumber : Int
  startingScore : Int
  turns : List Turn
  isFinished : Bool
  currentPlayerIndex : Nat
deriving DecidableEq

/-- Set record from models.ts. -/
structure SetState where
  players : List Player
  gameType : Int
  maxLegs : Int
  currentLeg : Option LegState
  isFinished : Bool
  winnerPlayerId : Option Int
deriving DecidableEq

/-- A set together with the module-level nextTurnId counter of state.ts. -/
structure EngineState where
  setState : SetState
  nextTurnId : Int
deriving DecidableEq

/-- Result record returned by addTurn. -/
structure AddTurnResult where
  legFinished : Bool
  winner : Option Player
deriving DecidableEq

/-- createEmptySet from state.ts: empty set with default values. -/
def createEmptySet : SetState :=
  { players := [], gameType := 501, maxLegs := 5,
    currentLeg := none, isFinished := false, winnerPlayerId := none }

/-- createNewLeg from state.ts. The source also resets the module
counter nextTurnId to 1; the reset is reflected at the call sites that
thread EngineState. -/
def createNewLeg (setState : SetState) (legNumber : Int) : LegState :=
  { legNumber := legNumber, startingScore := setState.gameType,
    turns := [], isFinished := false, currentPlayerIndex := 0 }

/-- Model of the JS String.prototype.trim used by startNewSet: drop
leading and trailing whitespace characters. -/
def jsTrim (s : String) : String :=
  String.mk (((s.data.dropWhile Char.isWhitespace).reverse.dropWhile
    Char.isWhitespace).reverse)

/-- startNewSet from state.ts. Trimmed names; the empty string is falsy
in JS, so an all-whitespace name falls back to the default. Creating
leg 1 resets the counter to 1. -/
def startNewSet (player1Name player2Name : String) (gameType maxLegs : Int) :
    EngineState :=
  let players : List Player :=
    [ { id := 1,
        name := if jsTrim player1Name = "" then "Player 1" else jsTrim player1Name,
        legsWon := 0 },
      { id := 2,
        name := if jsTrim player2Name = "" then "Player 2" else jsTrim player2Name,
        legsWon := 0 } ]
  let setState : SetState :=
    { players := players, gameType := gameType, maxLegs := maxLegs,
      currentLeg := none, isFinished := false, winnerPlayerId := none }
  { setState := { setState with currentLeg := some (createNewLeg setState 1) },
    nextTurnId := 1 }

/-- getRemainingScoreForPlayer from state.ts: fold over the turn list,
subtracting the points of the given player. -/
def getRemainingScoreForPlayer (leg : LegState) (playerId : Int) : Int :=
  leg.turns.foldl
    (fun remaining t => if t.playerId = playerId then remaining - t.points else remaining)
    leg.startingScore

/-- updateSetWinner from state.ts: the first player in list order whose
legsWon reaches floor(maxLegs / 2) + 1 is declared the set winner. -/
def updateSetWinner (setState : SetState) : SetState :=
  match setState.players.find? (fun p => decide (Int.fdiv setState.maxLegs 2 + 1 ≤ p.legsWon)) with
  | some player => { setState with isFinished := true, winnerPlayerId := some player.id }
  | none => setState

/-- Lines 83 to 107 of state.ts: record the validated turn, then either
finish the leg (incrementing the winner legsWon and re-evaluating the
set winner, without advancing the player index) or rotate to the next
player. remainingAfter is getRemainingScoreForPlayer minus points, which
the caller has checked to be nonnegative. -/
def addTurnRecord (e : EngineState) (points : Int) (leg : LegState)
    (currentPlayer : Player) : EngineState × AddTurnResult :=
  let remainingAfter := getRemainingScoreForPlayer leg currentPlayer.id - points
  let turn : Turn :=
    { id := e.nextTurnId, playerId := currentPlayer.id,
      points := points, runningScore := remainingAfter }
  if remainingAfter = 0 then
    let winner : Player := { currentPlayer with legsWon := currentPlayer.legsWon + 1 }
    ( { setState := updateSetWinner
          { e.setState with
            players := e.setState.players.set leg.currentPlayerIndex winner,
            currentLeg := some { leg with turns := leg.turns ++ [turn], isFinished := true } },
        nextTurnId := e.nextTurnId + 1 },
      { legFinished := true, winner := some winner } )
  else
    ( { setState := { e.setState with
          currentLeg := some { leg with
            turns := leg.turns ++ [turn],
            currentPlayerIndex := (leg.currentPlayerIndex + 1) % e.setState.players.length } },
        nextTurnId := e.nextTurnId + 1 },
      { legFinished := false, winner := none } )

/-- addTurn from state.ts. Returns none exactly when the JS code would
throw, reading the id of players[currentPlayerIndex] with the index out
of range. -/
def addTurn (e : EngineState) (points : Int) :
    Option (EngineState × AddTurnResult) :=
  match e.setState.currentLeg with
  | none => some (e, { legFinished := false, winner := none })
  | some leg =>
    if e.setState.isFinished || leg.isFinished then
      some (e, { legFinished := false, winner := none })
    else
      match e.setState.players.get? leg.currentPlayerIndex with
      | none => none
      | some currentPlayer =>
        if getRemainingScoreForPlayer leg currentPlayer.id - points < 0 then
          some (e, { legFinished := false, winner := none })
        else
          some (addTurnRecord e points leg currentPlayer)

/-- Lookup in the remainingScores record of removeLastTurn, keyed by
player id. -/
def lookupScore : List (Int × Int) → Int → Option Int
  | [], _ => none
  | (k, v) :: rest, pid => if k = pid then some v else lookupScore rest pid

/-- Assignment to the remainingScores record of removeLastTurn. -/
def updateScore : List (Int × Int) → Int → Int → List (Int × Int)
  | [], pid, v => [(pid, v)]
  | (k, w) :: rest, pid, v =>
    if k = pid then (pid, v) :: rest else (k, w) :: updateScore rest pid v

/-- Replay loop of removeLastTurn (lines 130 to 135 of state.ts):
recompute every runningScore from the per-player remaining scores.
Returns none when a turn references a player id absent from the record,
where JS would poison the scores with NaN. -/
def replayTurns (scores : List (Int × Int)) : List Turn → Option (List Turn)
  | [] => some []
  | t :: rest =>
    match lookupScore scores t.playerId with
    | none => none
    | some currentRemaining =>
      match replayTurns (updateScore scores t.playerId (currentRemaining - t.points)) rest with
      | none => none
      | some rest2 => some ({ t with runningScore := currentRemaining - t.points } :: rest2)

/-- findIndex of state.ts line 141, returning none instead of -1 when no
player carries the id. -/
def findPlayerIndex : List Player → Int → Option Nat
  | [], _ => none
  | p :: rest, pid =>
    if p.id = pid then some 0 else (findPlayerIndex rest pid).map (· + 1)

/-- removeLastTurn from state.ts: pop the last turn, reset the counter
to 1, replay the running scores and recompute the player index. When
findIndex returns -1 in JS, (-1 + 1) % length is 0, matched here by the
none branch. -/
def removeLastTurn (e : EngineState) : Option EngineState :=
  match e.setState.currentLeg with
  | none => some e
  | some leg =>
    if leg.turns.length = 0 || leg.isFinished then some e
    else
      match replayTurns (e.setState.players.map (fun p => (p.id, leg.startingScore)))
          leg.turns.dropLast with
      | none => none
      | some turns2 =>
        let newIndex :=
          match turns2.getLast? with
          | none => 0
          | some lastTurn =>
            match findPlayerIndex e.setState.players lastTurn.playerId with
            | some i => (i + 1) % e.setState.players.length
            | none => 0 % e.setState.players.length
        some { setState := { e.setState with
                 currentLeg := some { leg with turns := turns2, currentPlayerIndex := newIndex } },
               nextTurnId := 1 }

/-- canStartNextLeg from state.ts. -/
def canStartNextLeg (setState : SetState) : Bool :=
  match setState.currentLeg with
  | none => false
  | some leg => leg.isFinished && !setState.isFinished

/-- startNextLeg from state.ts. Creating the new leg resets the counter
to 1. -/
def startNextLeg (e : EngineState) : EngineState :=
  match e.setState.currentLeg with
  | none => e
  | some leg =>
    if !leg.isFinished || e.setState.isFinished then e
    else if e.setState.maxLegs < leg.legNumber + 1 then e
    else
      { setState := { e.setState with
          currentLeg := some (createNewLeg e.setState (leg.legNumber + 1)) },
        nextTurnId := 1 }

/-- resetSet from state.ts. -/
def resetSet (setState : SetState) : SetState :=
  { setState with
    players := setState.players.map (fun p => { p with legsWon := 0 }),
    isFinished := false, winnerPlayerId := none, currentLeg := none }

/-- getCurrentPlayerName from state.ts: the en dash placeholder when
there is no current leg or the index points past the player list. -/
def getCurrentPlayerName (setState : SetState) : String :=
  match setState.currentLeg with
  | none => "–"
  | some leg =>
    match setState.players.get? leg.currentPlayerIndex with
    | some player => player.name
    | none => "–"

/-- Specification-side sum: total points of the given player over a turn
list. -/
def sumPointsFor (pid : Int) : List Turn → Int
  | [] => 0
  | t :: rest => (if t.playerId = pid then t.points else 0) + sumPointsFor pid rest

/-- Running-score invariant, stated recursively: each turn stores the
starting score minus the points of its thrower accumulated over acc and
the list up to and including the turn itself. -/
def RsInvFrom (start : Int) : List Turn → List Turn → Prop
  | _, [] => True
  | acc, t :: rest =>
    t.runningScore = start - sumPointsFor t.playerId (acc ++ [t]) ∧
    RsInvFrom start (acc ++ [t]) rest

/-- The player list built by startNewSet: ids 1 and 2 in order. -/
def PlayersOk (ps : List Player) : Prop := ps.map Player.id = [1, 2]

/-- Every turn in the list was thrown by a player of the list. -/
def TurnsPlayersOk (ps : List Player) (turns : List Turn) : Prop :=
  ∀ t ∈ turns, t.playerId ∈ ps.map Player.id

/-- Turn-order invariant: index 0 on an empty leg; otherwise the player
after the last thrower, except that a finished leg keeps the index of
the last thrower. -/
def OrderInv (ps : List Player) (leg : LegState) : Prop :=
  (leg.turns = [] → leg.currentPlayerIndex = 0) ∧
  (∀ t, leg.turns.getLast? = some t →
    ∃ i, findPlayerIndex ps t.playerId = some i ∧
      leg.currentPlayerIndex = if leg.isFinished then i else (i + 1) % ps.length)

/-- All leg-level invariants together. -/
def LegInv (ps : List Player) (leg : LegState) : Prop :=
  RsInvFrom leg.startingScore [] leg.turns ∧
  TurnsPlayersOk ps leg.turns ∧
  OrderInv ps leg

/-- Engine invariant: whenever a current leg exists, the players are the
two set up by startNewSet and the leg invariants hold. -/
def Inv (e : EngineState) : Prop :=
  ∀ leg, e.setState.currentLeg = some leg →
    PlayersOk e.setState.players ∧ LegInv e.setState.players leg

/-- One call to a mutating operation of the engine. -/
inductive Step : EngineState → EngineState → Prop where
  | addTurnStep (e e' : EngineState) (points : Int) (r : AddTurnResult) :
      addTurn e points = some (e', r) → Step e e'
  | removeLastTurnStep (e e' : EngineState) :
      removeLastTurn e = some e' → Step e e'
  | startNextLegStep (e : EngineState) : Step e (startNextLeg e)
  | resetSetStep (e : EngineState) : Step e ⟨resetSet e.setState, e.nextTurnId⟩
  | updateSetWinnerStep (e : EngineState) :
      Step e ⟨updateSetWinner e.setState, e.nextTurnId⟩

/-- Initial engine states: a fresh set from startNewSet, or the empty
set with an arbitrary counter value. -/
def InitState (e : EngineState) : Prop :=
  (∃ n1 n2 gt ml, e = startNewSet n1 n2 gt ml) ∨
  (∃ c, e = ⟨createEmptySet, c⟩)

/-- States reachable from an initial state by engine operations. -/
inductive Reachable : EngineState → Prop where
  | init (e : EngineState) : InitState e → Reachable e
  | step (e e' : EngineState) : Reachable e → Step e e' → Reachable e'

lemma sumPointsFor_append (pid : Int) (xs ys : List Turn) :
    sumPointsFor pid (xs ++ ys) = sumPointsFor pid xs + sumPointsFor pid ys := by
  induction xs with
  | nil => simp [sumPointsFor]
  | cons t rest ih =>
    simp only [List.cons_append, sumPointsFor, List.append_eq, ih]
    omega

lemma foldl_remaining (pid : Int) (turns : List Turn) :
    ∀ r : Int,
      turns.foldl
        (fun remaining t => if t.playerId = pid then remaining - t.points else remaining) r
      = r - sumPointsFor pid turns := by
  induction turns with
  | nil => intro r; simp [sumPointsFor]
  | cons t rest ih =>
    intro r
    by_cases h : t.playerId = pid
    · simp [List.foldl, h, sumPointsFor, ih]
      omega
    · simp [List.foldl, h, sumPointsFor, ih]

/-- The fold of getRemainingScoreForPlayer computes the starting score
minus the total points of the player. -/
lemma getRemainingScoreForPlayer_eq (leg : LegState) (pid : Int) :
    getRemainingScoreForPlayer leg pid
      = leg.startingScore - sumPointsFor pid leg.turns :=
  foldl_remaining pid leg.turns leg.startingScore

lemma lookupScore_updateScore (scores : List (Int × Int)) (pid v q : Int) :
    lookupScore (updateScore scores pid v) q
      = if q = pid then some v else lookupScore scores q := by
  induction scores with
  | nil =>
    by_cases h : pid = q
    · subst h; simp [updateScore, lookupScore]
    · have h2 : ¬ q = pid := fun hh => h hh.symm
      simp [updateScore, lookupScore, h, h2]
  | cons kv rest ih =>
    obtain ⟨k, w⟩ := kv
    by_cases hk : k = pid
    · subst hk
      by_cases hq : q = k
      · subst hq; simp [updateScore, lookupScore]
      · have hq2 : ¬ k = q := fun hh => hq hh.symm
        simp [updateScore, lookupScore, hq, hq2]
    · by_cases hkq : k = q
      · subst hkq
        have h2 : ¬ k = pid := hk
        simp [updateScore, lookupScore, hk, h2]
      · simp [updateScore, lookupScore, hk, hkq, ih]

lemma rsInvFrom_append (start : Int) (xs : List Turn) :
    ∀ (acc ys : List Turn),
      RsInvFrom start acc (xs ++ ys) ↔
        RsInvFrom start acc xs ∧ RsInvFrom start (acc ++ xs) ys := by
  induction xs with
  | nil => intro acc ys; simp [RsInvFrom]
  | cons t rest ih =>
    intro acc ys
    have hsplit : acc ++ t :: rest = (acc ++ [t]) ++ rest := by simp
    show (t.runningScore = start - sumPointsFor t.playerId (acc ++ [t]) ∧
        RsInvFrom start (acc ++ [t]) (rest ++ ys)) ↔ _
    rw [ih (acc ++ [t]) ys]
    constructor
    · rintro ⟨h0, hxs, hys⟩
      exact ⟨⟨h0, hxs⟩, by rw [hsplit]; exact hys⟩
    · rintro ⟨⟨h0, hxs⟩, hys⟩
      exact ⟨h0, hxs, by rw [hsplit] at hys; exact hys⟩

/-- The recursive running-score invariant is the indexed statement of
the specification: each turn equals the starting score minus the points
of its thrower over the prefix up to and including the turn. -/
lemma rsInvFrom_iff_indexed (start : Int) (turns : List Turn) :
    ∀ acc : List Turn,
      RsInvFrom start acc turns ↔
        ∀ i (h : i < turns.length),
          (turns.get ⟨i, h⟩).runningScore
            = start - sumPointsFor (turns.get ⟨i, h⟩).playerId (acc ++ turns.take (i + 1)) := by
  induction turns with
  | nil => intro acc; simp [RsInvFrom]
  | cons t rest ih =>
    intro acc
    constructor
    · rintro ⟨h0, hrest⟩ i h
      match i with
      | 0 => simpa using h0
      | Nat.succ j =>
        have := (ih (acc ++ [t])).1 hrest j (by simpa using Nat.lt_of_succ_lt_succ h)
        simpa [List.append_assoc] using this
    · intro hall
      refine ⟨by simpa using hall 0 (Nat.succ_pos _), (ih (acc ++ [t])).2 ?_⟩
      intro j hj
      have := hall (j + 1) (by simpa using Nat.succ_lt_succ hj)
      simpa [List.append_assoc] using this

/-- Replaying a turn list that already satisfies the running-score
invariant reproduces it unchanged, provided the score record holds the
correct remaining score for every player id a turn references. -/
lemma replayTurns_id (start : Int) (turns : List Turn) :
    ∀ (acc : List Turn) (scores : List (Int × Int)),
      (∀ t ∈ turns, (lookupScore scores t.playerId).isSome = true) →
      (∀ pid, (lookupScore scores pid).isSome = true →
        lookupScore scores pid = some (start - sumPointsFor pid acc)) →
      RsInvFrom start acc turns →
      replayTurns scores turns = some turns := by
  induction turns with
  | nil => intro acc scores _ _ _; simp [replayTurns]
  | cons t rest ih =>
    intro acc scores hkeys hscores hinv
    have hsome : (lookupScore scores t.playerId).isSome = true :=
      hkeys t (List.mem_cons_self t rest)
    have hval : lookupScore scores t.playerId
        = some (start - sumPointsFor t.playerId acc) := hscores _ hsome
    have hrun : t.runningScore
        = (start - sumPointsFor t.playerId acc) - t.points := by
      have h1 := hinv.1
      rw [sumPointsFor_append] at h1
      simp [sumPointsFor] at h1
      omega
    have hrest : replayTurns
        (updateScore scores t.playerId ((start - sumPointsFor t.playerId acc) - t.points))
        rest = some rest := by
      apply ih (acc ++ [t])
      · intro u hu
        rw [lookupScore_updateScore]
        by_cases h : u.playerId = t.playerId
        · simp [h]
        · simp [h]
          exact hkeys u (List.mem_cons_of_mem t hu)
      · intro pid hpid
        rw [lookupScore_updateScore] at hpid ⊢
        by_cases h : pid = t.playerId
        · subst h
          rw [if_pos rfl]
          congr 1
          rw [sumPointsFor_append]
          simp only [sumPointsFor, if_true, eq_self_iff_true]
          omega
        · simp only [if_neg h] at hpid ⊢
          rw [hscores pid hpid, sumPointsFor_append]
          have hne : ¬ t.playerId = pid := fun hh => h hh.symm
          simp [sumPointsFor, hne]
      · exact hinv.2
    have hteta : { t with runningScore := (start - sumPointsFor t.playerId acc) - t.points } = t := by
      cases t
      simp_all
    simp only [replayTurns, hval, hrest, hteta]

/-- Shape of a player list satisfying PlayersOk. -/
lemma playersOk_shape (ps : List Player) (h : PlayersOk ps) :
    ∃ p1 p2, ps = [p1, p2] ∧ p1.id = 1 ∧ p2.id = 2 := by
  match ps with
  | [] => simp [PlayersOk] at h
  | [p] => simp [PlayersOk] at h
  | p1 :: p2 :: p3 :: rest => simp [PlayersOk] at h
  | [p1, p2] =>
    simp only [PlayersOk, List.map_cons, List.map_nil, List.cons.injEq, and_true] at h
    exact ⟨p1, p2, rfl, h.1, h.2⟩

/-- Looking up the id of the player stored at an index finds exactly
that index, for the two-player list of startNewSet. -/
lemma findPlayerIndex_get (ps : List Player) (hok : PlayersOk ps) (i : Nat) (cp : Player)
    (hget : ps.get? i = some cp) :
    findPlayerIndex ps cp.id = some i := by
  obtain ⟨p1, p2, rfl, h1, h2⟩ := playersOk_shape ps hok
  match i with
  | 0 =>
    simp only [List.get?] at hget
    cases hget
    simp [findPlayerIndex, h1]
  | 1 =>
    simp only [List.get?] at hget
    cases hget
    have hne : ¬ p1.id = cp.id := by rw [h1, h2]; decide
    simp [findPlayerIndex, hne]
  | Nat.succ (Nat.succ j) =>
    simp [List.get?] at hget

/-- A player id occurring in the two-player list can always be found. -/
lemma findPlayerIndex_mem (ps : List Player) (pid : Int)
    (hmem : pid ∈ ps.map Player.id) :
    ∃ i, findPlayerIndex ps pid = some i ∧ i < ps.length := by
  induction ps with
  | nil => simp at hmem
  | cons p rest ih =>
    by_cases h : p.id = pid
    · exact ⟨0, by simp [findPlayerIndex, h], by simp⟩
    · have : pid ∈ rest.map Player.id := by
        simp only [List.map_cons, List.mem_cons] at hmem
        exact hmem.resolve_left (fun hh => h hh.symm)
      obtain ⟨i, hi, hlt⟩ := ih this
      exact ⟨i + 1, by simp [findPlayerIndex, h, hi], by simpa using Nat.succ_lt_succ hlt⟩

lemma addTurn_no_leg (e : EngineState) (points : Int)
    (h : e.setState.currentLeg = none) :
    addTurn e points = some (e, { legFinished := false, winner := none }) := by
  simp [addTurn, h]

lemma addTurn_finished (e : EngineState) (points : Int) (leg : LegState)
    (h : e.setState.currentLeg = some leg)
    (hg : (e.setState.isFinished || leg.isFinished) = true) :
    addTurn e points = some (e, { legFinished := false, winner := none }) := by
  simp [addTurn, h, hg]

lemma addTurn_bust (e : EngineState) (points : Int) (leg : LegState) (cp : Player)
    (h : e.setState.currentLeg = some leg)
    (hg : (e.setState.isFinished || leg.isFinished) = false)
    (hget : e.setState.players.get? leg.currentPlayerIndex = some cp)
    (hlt : getRemainingScoreForPlayer leg cp.id - points < 0) :
    addTurn e points = some (e, { legFinished := false, winner := none }) := by
  have hget2 : e.setState.players[leg.currentPlayerIndex]? = some cp := by
    rw [← List.get?_eq_getElem?]; exact hget
  have hlt2 : getRemainingScoreForPlayer leg cp.id < points := by omega
  simp [addTurn, h, hg, hget2, hlt2]

lemma addTurn_accept (e : EngineState) (points : Int) (leg : LegState) (cp : Player)
    (h : e.setState.currentLeg = some leg)
    (hg : (e.setState.isFinished || leg.isFinished) = false)
    (hget : e.setState.players.get? leg.currentPlayerIndex = some cp)
    (hge : ¬ getRemainingScoreForPlayer leg cp.id - points < 0) :
    addTurn e points = some (addTurnRecord e points leg cp) := by
  have hget2 : e.setState.players[leg.currentPlayerIndex]? = some cp := by
    rw [← List.get?_eq_getElem?]; exact hget
  have hge2 : ¬ getRemainingScoreForPlayer leg cp.id < points := by omega
  simp [addTurn, h, hg, hget2, hge2]

lemma addTurnRecord_finish (e : EngineState) (points : Int) (leg : LegState) (cp : Player)
    (hz : getRemainingScoreForPlayer leg cp.id - points = 0) :
    addTurnRecord e points leg cp =
      ( { setState := updateSetWinner
            { e.setState with
              players := e.setState.players.set leg.currentPlayerIndex
                { cp with legsWon := cp.legsWon + 1 },
              currentLeg := some { leg with
                turns := leg.turns ++
                  [{ id := e.nextTurnId, playerId := cp.id, points := points,
                     runningScore := getRemainingScoreForPlayer leg cp.id - points }],
                isFinished := true } },
          nextTurnId := e.nextTurnId + 1 },
        { legFinished := true, winner := some { cp with legsWon := cp.legsWon + 1 } } ) := by
  simp [addTurnRecord, hz]

lemma addTurnRecord_rotate (e : EngineState) (points : Int) (leg : LegState) (cp : Player)
    (hz : ¬ getRemainingScoreForPlayer leg cp.id - points = 0) :
    addTurnRecord e points leg cp =
      ( { setState := { e.setState with
            currentLeg := some { leg with
              turns := leg.turns ++
                [{ id := e.nextTurnId, playerId := cp.id, points := points,
                   runningScore := getRemainingScoreForPlayer leg cp.id - points }],
              currentPlayerIndex :=
                (leg.currentPlayerIndex + 1) % e.setState.players.length } },
          nextTurnId := e.nextTurnId + 1 },
        { legFinished := false, winner := none } ) := by
  simp [addTurnRecord, hz]

lemma lookupScore_init (ps : List Player) (s : Int) (pid : Int)
    (h : pid ∈ ps.map Player.id) :
    lookupScore (ps.map (fun p => (p.id, s))) pid = some s := by
  induction ps with
  | nil => simp at h
  | cons p rest ih =>
    by_cases hp : p.id = pid
    · simp [lookupScore, hp]
    · simp only [List.map_cons, List.mem_cons] at h
      simp [lookupScore, hp, ih (h.resolve_left (fun hh => hp hh.symm))]

lemma lookupScore_init_mem (ps : List Player) (s : Int) (pid : Int)
    (h : (lookupScore (ps.map (fun p => (p.id, s))) pid).isSome = true) :
    pid ∈ ps.map Player.id := by
  induction ps with
  | nil => simp [lookupScore] at h
  | cons p rest ih =>
    by_cases hp : p.id = pid
    · simp [hp]
    · simp only [List.map_cons, lookupScore, if_neg hp] at h
      simp [ih h]

lemma removeLastTurn_no_leg (e : EngineState)
    (h : e.setState.currentLeg = none) : removeLastTurn e = some e := by
  simp [removeLastTurn, h]

lemma removeLastTurn_guard (e : EngineState) (leg : LegState)
    (h : e.setState.currentLeg = some leg)
    (hg : leg.turns.length = 0 ∨ leg.isFinished = true) :
    removeLastTurn e = some e := by
  rcases hg with hg | hg <;> simp [removeLastTurn, h, hg]

/-- Active branch of removeLastTurn, on a state satisfying the leg
invariants: the replay returns the popped turn list unchanged and the
new player index follows the last remaining thrower. -/
lemma removeLastTurn_active (e : EngineState) (leg : LegState)
    (h : e.setState.currentLeg = some leg)
    (hne : leg.turns ≠ []) (hfin : leg.isFinished = false)
    (hrs : RsInvFrom leg.startingScore [] leg.turns)
    (htp : TurnsPlayersOk e.setState.players leg.turns) :
    ∃ leg2,
      removeLastTurn e
        = some { setState := { e.setState with currentLeg := some leg2 }, nextTurnId := 1 } ∧
      leg2.legNumber = leg.legNumber ∧
      leg2.startingScore = leg.startingScore ∧
      leg2.isFinished = false ∧
      leg2.turns = leg.turns.dropLast ∧
      (leg.turns.dropLast = [] → leg2.currentPlayerIndex = 0) ∧
      (∀ t, leg.turns.dropLast.getLast? = some t →
        ∃ i, findPlayerIndex e.setState.players t.playerId = some i ∧
          leg2.currentPlayerIndex = (i + 1) % e.setState.players.length) := by
  have hsplit : leg.turns.dropLast ++ [leg.turns.getLast hne] = leg.turns :=
    List.dropLast_append_getLast hne
  have hrs2 : RsInvFrom leg.startingScore [] leg.turns.dropLast := by
    have := hrs
    rw [← hsplit] at this
    exact ((rsInvFrom_append leg.startingScore leg.turns.dropLast [] _).1 this).1
  have hreplay : replayTurns
      (e.setState.players.map (fun p => (p.id, leg.startingScore)))
      leg.turns.dropLast = some leg.turns.dropLast := by
    apply replayTurns_id leg.startingScore leg.turns.dropLast []
    · intro t ht
      have hmem : t ∈ leg.turns := by
        rw [← hsplit]
        exact List.mem_append_left _ ht
      rw [lookupScore_init _ _ _ (htp t hmem)]
      rfl
    · intro pid hpid
      rw [lookupScore_init _ _ _ (lookupScore_init_mem _ _ _ hpid)]
      simp [sumPointsFor]
    · exact hrs2
  have hlen : ¬ leg.turns.length = 0 := by
    intro hh
    exact hne (List.eq_nil_of_length_eq_zero hh)
  refine ⟨{ leg with turns := leg.turns.dropLast, currentPlayerIndex :=
      match leg.turns.dropLast.getLast? with
      | none => 0
      | some lastTurn =>
        match findPlayerIndex e.setState.players lastTurn.playerId with
        | some i => (i + 1) % e.setState.players.length
        | none => 0 % e.setState.players.length }, ?_, rfl, rfl, hfin, rfl, ?_, ?_⟩
  · simp [removeLastTurn, h, hlen, hfin, hreplay]
  · intro hnil
    simp [hnil]
  · intro t ht
    have hmem0 : t ∈ leg.turns.dropLast := by
      obtain ⟨hh, rfl⟩ := List.mem_getLast?_eq_getLast (Option.mem_def.2 ht)
      exact List.getLast_mem hh
    have hmem : t ∈ leg.turns := by
      rw [← hsplit]
      exact List.mem_append_left _ hmem0
    obtain ⟨i, hi, _⟩ := findPlayerIndex_mem e.setState.players t.playerId (htp t hmem)
    refine ⟨i, hi, ?_⟩
    simp [ht, hi]

lemma get?_lt_length {α : Type} (l : List α) (i : Nat) (a : α)
    (h : l.get? i = some a) : i < l.length := by
  rcases List.get?_eq_some.1 h with ⟨hlt, _⟩
  exact hlt

lemma get?_set_self {α : Type} (ps : List α) (i : Nat) (q : α) (hlt : i < ps.length) :
    (ps.set i q).get? i = some q := by
  induction ps generalizing i with
  | nil => simp at hlt
  | cons p rest ih =>
    match i with
    | 0 => simp
    | Nat.succ j =>
      simpa using ih j (by simpa using Nat.lt_of_succ_lt_succ hlt)

lemma playersOk_set (ps : List Player) (hok : PlayersOk ps) (i : Nat) (cp q : Player)
    (hget : ps.get? i = some cp) (hid : q.id = cp.id) :
    PlayersOk (ps.set i q) := by
  obtain ⟨p1, p2, rfl, h1, h2⟩ := playersOk_shape ps hok
  match i with
  | 0 =>
    have hcp : p1 = cp := by simpa [List.get?] using hget
    subst hcp
    simp [PlayersOk, hid, h1, h2]
  | 1 =>
    have hcp : p2 = cp := by simpa [List.get?] using hget
    subst hcp
    simp [PlayersOk, hid, h1, h2]
  | Nat.succ (Nat.succ j) => simp [List.get?] at hget

lemma updateSetWinner_players (s : SetState) :
    (updateSetWinner s).players = s.players := by
  unfold updateSetWinner
  split <;> rfl

lemma updateSetWinner_currentLeg (s : SetState) :
    (updateSetWinner s).currentLeg = s.currentLeg := by
  unfold updateSetWinner
  split <;> rfl

lemma turnsPlayersOk_of_map_eq (ps ps2 : List Player) (turns : List Turn)
    (heq : ps2.map Player.id = ps.map Player.id)
    (h : TurnsPlayersOk ps turns) : TurnsPlayersOk ps2 turns := by
  intro t ht
  rw [heq]
  exact h t ht

/-- Both initial states satisfy the invariant. -/
lemma inv_init (e : EngineState) (h : InitState e) : Inv e := by
  rcases h with ⟨n1, n2, gt, ml, rfl⟩ | ⟨c, rfl⟩
  · intro leg hleg
    have hleg2 : leg = createNewLeg
        { players := [
            { id := 1, name := if jsTrim n1 = "" then "Player 1" else jsTrim n1, legsWon := 0 },
            { id := 2, name := if jsTrim n2 = "" then "Player 2" else jsTrim n2, legsWon := 0 } ],
          gameType := gt, maxLegs := ml,
          currentLeg := none, isFinished := false, winnerPlayerId := none } 1 := by
      simpa [startNewSet] using hleg.symm
    subst hleg2
    refine ⟨rfl, trivial, ?_, ?_, ?_⟩
    · intro t ht
      simp [createNewLeg] at ht
    · intro _
      rfl
    · intro t ht
      simp [createNewLeg] at ht
  · intro leg hleg
    simp [createEmptySet] at hleg

/-- startNextLeg preserves the invariant. -/
lemma inv_startNextLeg (e : EngineState) (hinv : Inv e) : Inv (startNextLeg e) := by
  unfold startNextLeg
  cases hleg : e.setState.currentLeg with
  | none => simpa [hleg] using hinv
  | some leg =>
    by_cases hg : (!leg.isFinished || e.setState.isFinished) = true
    · simpa [hleg, hg] using hinv
    · have hg2 : (!leg.isFinished || e.setState.isFinished) = false := by
        revert hg
        cases (!leg.isFinished || e.setState.isFinished) <;> simp
      by_cases hmax : e.setState.maxLegs < leg.legNumber + 1
      · simpa [hleg, hg2, hmax] using hinv
      · simp only [hleg, hg2, hmax, Bool.false_eq_true, if_false, if_true]
        intro leg2 hleg2
        simp only [Option.some.injEq] at hleg2
        subst hleg2
        refine ⟨(hinv leg hleg).1, trivial, ?_, ?_, ?_⟩
        · intro t ht
          simp [createNewLeg] at ht
        · intro _
          rfl
        · intro t ht
          simp [createNewLeg] at ht

/-- resetSet preserves the invariant (the leg is cleared). -/
lemma inv_resetSet (e : EngineState) :
    Inv { setState := resetSet e.setState, nextTurnId := e.nextTurnId } := by
  intro leg hleg
  simp [resetSet] at hleg

/-- updateSetWinner preserves the invariant: players and leg untouched. -/
lemma inv_updateSetWinner (e : EngineState) (hinv : Inv e) :
    Inv { setState := updateSetWinner e.setState, nextTurnId := e.nextTurnId } := by
  intro leg hleg
  rw [show ({ setState := updateSetWinner e.setState, nextTurnId := e.nextTurnId } :
      EngineState).setState.currentLeg = (updateSetWinner e.setState).currentLeg from rfl,
    updateSetWinner_currentLeg] at hleg
  have := hinv leg hleg
  constructor
  · show PlayersOk (updateSetWinner e.setState).players
    rw [updateSetWinner_players]
    exact this.1
  · show LegInv (updateSetWinner e.setState).players leg
    rw [updateSetWinner_players]
    exact this.2

/-- removeLastTurn preserves the invariant. -/
lemma inv_removeLastTurn (e e' : EngineState) (hinv : Inv e)
    (h : removeLastTurn e = some e') : Inv e' := by
  cases hleg : e.setState.currentLeg with
  | none =>
    rw [removeLastTurn_no_leg e hleg] at h
    cases h
    exact hinv
  | some leg =>
    by_cases hg : leg.turns.length = 0 ∨ leg.isFinished = true
    · rw [removeLastTurn_guard e leg hleg hg] at h
      cases h
      exact hinv
    · push_neg at hg
      have hne : leg.turns ≠ [] := fun hh => hg.1 (by simp [hh])
      have hfin : leg.isFinished = false := by
        revert hg
        cases leg.isFinished <;> simp
      obtain ⟨hok, hrs, htp, _⟩ := hinv leg hleg
      obtain ⟨leg2, heq, _, hstart, hfin2, hturns, hidx0, hidxlast⟩ :=
        removeLastTurn_active e leg hleg hne hfin hrs htp
      rw [heq] at h
      cases h
      intro leg3 hleg3
      simp only [Option.some.injEq] at hleg3
      subst hleg3
      refine ⟨hok, ?_, ?_, ?_, ?_⟩
      · rw [hturns, hstart]
        have hsplit : leg.turns.dropLast ++ [leg.turns.getLast hne] = leg.turns :=
          List.dropLast_append_getLast hne
        have := hrs
        rw [← hsplit] at this
        exact ((rsInvFrom_append leg.startingScore leg.turns.dropLast [] _).1 this).1
      · rw [hturns]
        intro t ht
        have hsplit : leg.turns.dropLast ++ [leg.turns.getLast hne] = leg.turns :=
          List.dropLast_append_getLast hne
        exact htp t (by rw [← hsplit]; exact List.mem_append_left _ ht)
      · rw [hturns]
        exact hidx0
      · rw [hturns, hfin2]
        intro t ht
        obtain ⟨i, hi, hidx⟩ := hidxlast t ht
        exact ⟨i, hi, by simpa using hidx⟩

lemma addTurn_no_player (e : EngineState) (points : Int) (leg : LegState)
    (h : e.setState.currentLeg = some leg)
    (hg : (e.setState.isFinished || leg.isFinished) = false)
    (hget : e.setState.players.get? leg.currentPlayerIndex = none) :
    addTurn e points = none := by
  have hget2 : e.setState.players[leg.currentPlayerIndex]? = none := by
    rw [← List.get?_eq_getElem?]; exact hget
  simp [addTurn, h, hg, hget2]

lemma getLast?_snoc (xs : List Turn) (a : Turn) : (xs ++ [a]).getLast? = some a := by
  rw [List.getLast?_append_cons]
  rfl

/-- The state built by addTurnRecord satisfies the invariant. -/
lemma inv_addTurnRecord (e : EngineState) (points : Int) (leg : LegState) (cp : Player)
    (hlf : leg.isFinished = false)
    (hget : e.setState.players.get? leg.currentPlayerIndex = some cp)
    (hok : PlayersOk e.setState.players)
    (hinv : LegInv e.setState.players leg) :
    Inv (addTurnRecord e points leg cp).1 := by
  have hlen : leg.currentPlayerIndex < e.setState.players.length :=
    get?_lt_length _ _ _ hget
  have hcpmem : cp.id ∈ e.setState.players.map Player.id :=
    List.mem_map_of_mem Player.id (List.get?_mem hget)
  have hfind : findPlayerIndex e.setState.players cp.id = some leg.currentPlayerIndex :=
    findPlayerIndex_get e.setState.players hok leg.currentPlayerIndex cp hget
  have hrs_new : ∀ t0 : Turn, t0.playerId = cp.id → t0.points = points →
      t0.runningScore = getRemainingScoreForPlayer leg cp.id - points →
      RsInvFrom leg.startingScore [] (leg.turns ++ [t0]) := by
    intro t0 hpid hpts hrun
    rw [rsInvFrom_append]
    refine ⟨hinv.1, ?_, trivial⟩
    simp only [List.nil_append]
    rw [sumPointsFor_append]
    have h1 : sumPointsFor t0.playerId [t0] = points := by
      simp [sumPointsFor, hpts]
    rw [h1, hrun, getRemainingScoreForPlayer_eq, hpid]
    omega
  have htp_new : ∀ t0 : Turn, t0.playerId = cp.id →
      TurnsPlayersOk e.setState.players (leg.turns ++ [t0]) := by
    intro t0 hpid t ht
    rcases List.mem_append.1 ht with ht | ht
    · exact hinv.2.1 t ht
    · have : t = t0 := by simpa using ht
      rw [this, hpid]
      exact hcpmem
  by_cases hz : getRemainingScoreForPlayer leg cp.id - points = 0
  · rw [addTurnRecord_finish e points leg cp hz]
    intro leg2 hleg2
    simp only [updateSetWinner_currentLeg, Option.some.injEq] at hleg2
    subst hleg2
    have hok2 : PlayersOk (e.setState.players.set leg.currentPlayerIndex
        { cp with legsWon := cp.legsWon + 1 }) :=
      playersOk_set e.setState.players hok leg.currentPlayerIndex cp _ hget rfl
    simp only [updateSetWinner_players]
    refine ⟨hok2, ?_, ?_, ?_, ?_⟩
    · exact hrs_new _ rfl rfl rfl
    · exact turnsPlayersOk_of_map_eq _ _ _ (by rw [hok2, hok]) (htp_new _ rfl)
    · intro hnil
      exact absurd hnil (by simp)
    · intro t ht
      simp only [getLast?_snoc, Option.some.injEq] at ht
      subst ht
      refine ⟨leg.currentPlayerIndex, ?_, by simp⟩
      exact findPlayerIndex_get _ hok2 leg.currentPlayerIndex
        { cp with legsWon := cp.legsWon + 1 } (get?_set_self _ _ _ hlen)
  · rw [addTurnRecord_rotate e points leg cp hz]
    intro leg2 hleg2
    simp only [Option.some.injEq] at hleg2
    subst hleg2
    refine ⟨hok, ?_, ?_, ?_, ?_⟩
    · exact hrs_new _ rfl rfl rfl
    · exact htp_new _ rfl
    · intro hnil
      exact absurd hnil (by simp)
    · intro t ht
      simp only [getLast?_snoc, Option.some.injEq] at ht
      subst ht
      refine ⟨leg.currentPlayerIndex, hfind, ?_⟩
      simp [hlf]

/-- addTurn preserves the invariant. -/
lemma inv_addTurn (e e' : EngineState) (points : Int) (r : AddTurnResult)
    (hinv : Inv e) (h : addTurn e points = some (e', r)) : Inv e' := by
  cases hleg : e.setState.currentLeg with
  | none =>
    rw [addTurn_no_leg e points hleg] at h
    injection h with h
    rw [show e' = e from (congrArg Prod.fst h).symm]
    exact hinv
  | some leg =>
    by_cases hg : (e.setState.isFinished || leg.isFinished) = true
    · rw [addTurn_finished e points leg hleg hg] at h
      injection h with h
      rw [show e' = e from (congrArg Prod.fst h).symm]
      exact hinv
    · have hg2 : (e.setState.isFinished || leg.isFinished) = false := by
        revert hg
        cases (e.setState.isFinished || leg.isFinished) <;> simp
      have hlf : leg.isFinished = false := (Bool.or_eq_false_iff.1 hg2).2
      cases hget : e.setState.players.get? leg.currentPlayerIndex with
      | none =>
        rw [addTurn_no_player e points leg hleg hg2 hget] at h
        cases h
      | some cp =>
        by_cases hbust : getRemainingScoreForPlayer leg cp.id - points < 0
        · rw [addTurn_bust e points leg cp hleg hg2 hget hbust] at h
          injection h with h
          rw [show e' = e from (congrArg Prod.fst h).symm]
          exact hinv
        · rw [addTurn_accept e points leg cp hleg hg2 hget hbust] at h
          injection h with h
          rw [show e' = (addTurnRecord e points leg cp).1 from (congrArg Prod.fst h).symm]
          exact inv_addTurnRecord e points leg cp hlf hget (hinv leg hleg).1 (hinv leg hleg).2

/-- Every engine operation preserves the invariant. -/
lemma inv_step (e e' : EngineState) (hs : Step e e') (hinv : Inv e) : Inv e' := by
  cases hs with
  | addTurnStep a b c d => exact inv_addTurn _ _ _ _ hinv d
  | removeLastTurnStep a b => exact inv_removeLastTurn _ _ hinv b
  | startNextLegStep => exact inv_startNextLeg e hinv
  | resetSetStep => exact inv_resetSet e
  | updateSetWinnerStep => exact inv_updateSetWinner e hinv

/-- Every reachable engine state satisfies the invariant. -/
lemma reachable_inv (e : EngineState) (h : Reachable e) : Inv e := by
  induction h with
  | init e hi => exact inv_init e hi
  | step e e' _ hs ih => exact inv_step e e' hs ih

/-- Concrete sample match used by the witnesses: a fresh 501 set. -/
def sampleInit : EngineState := startNewSet "Alice" "Bob" 501 5

/-- The sample state after the first player throws 60. -/
def sampleAfterOne : EngineState :=
  ((addTurn sampleInit 60).getD (sampleInit, { legFinished := false, winner := none })).1

/-- The current leg of the sample state. -/
def sampleLeg : LegState :=
  sampleAfterOne.setState.currentLeg.getD (createNewLeg createEmptySet 1)

lemma addTurn_sampleInit :
    addTurn sampleInit 60
      = some (sampleAfterOne, { legFinished := false, winner := none }) := by
  decide

lemma reachable_sampleAfterOne : Reachable sampleAfterOne :=
  Reachable.step sampleInit sampleAfterOne
    (Reachable.init sampleInit (Or.inl ⟨"Alice", "Bob", 501, 5, rfl⟩))
    (Step.addTurnStep sampleInit sampleAfterOne 60
      { legFinished := false, winner := none } addTurn_sampleInit)

/-- C1: in every reachable engine state, the runningScore of every turn
of the current leg equals the startingScore of the leg minus the sum of
the points of that turn thrower over all turns up to and including it,
and getRemainingScoreForPlayer equals startingScore minus the sum of
the points of the player over all turns of the leg. -/
theorem running_score_invariant (e : EngineState) (leg : LegState)
    (hr : Reachable e) (hleg : e.setState.currentLeg = some leg) :
    (∀ i (h : i < leg.turns.length),
      (leg.turns.get ⟨i, h⟩).runningScore
        = leg.startingScore
          - sumPointsFor (leg.turns.get ⟨i, h⟩).playerId (leg.turns.take (i + 1))) ∧
    (∀ pid : Int, getRemainingScoreForPlayer leg pid
        = leg.startingScore - sumPointsFor pid leg.turns) := by
  refine ⟨?_, fun pid => getRemainingScoreForPlayer_eq leg pid⟩
  have hrs := ((reachable_inv e hr) leg hleg).2.1
  have hind := (rsInvFrom_iff_indexed leg.startingScore leg.turns []).1 hrs
  intro i h
  simpa using hind i h

/-- Witness for C1 on the concrete sample state. -/
theorem running_score_invariant_witness :
    getRemainingScoreForPlayer sampleLeg 1
      = sampleLeg.startingScore - sumPointsFor 1 sampleLeg.turns := by
  exact (running_score_invariant sampleAfterOne sampleLeg
    reachable_sampleAfterOne (by decide)).2 1

/-- C9: turn-order invariant. In every reachable state with a current
leg, an empty turn list forces currentPlayerIndex 0, and otherwise the
index is the player after the last thrower, modulo the player count,
except that a finished leg keeps the index of the last thrower. -/
theorem turn_order_invariant (e : EngineState) (leg : LegState)
    (hr : Reachable e) (hleg : e.setState.currentLeg = some leg) :
    (leg.turns = [] → leg.currentPlayerIndex = 0) ∧
    (∀ t, leg.turns.getLast? = some t →
      ∃ i, findPlayerIndex e.setState.players t.playerId = some i ∧
        leg.currentPlayerIndex
          = if leg.isFinished then i else (i + 1) % e.setState.players.length) :=
  ((reachable_inv e hr) leg hleg).2.2.2

/-- Witness for C9 on the concrete sample state. -/
theorem turn_order_invariant_witness :
    ∃ i, findPlayerIndex sampleAfterOne.setState.players 1 = some i ∧
      sampleLeg.currentPlayerIndex
        = if sampleLeg.isFinished then i
          else (i + 1) % sampleAfterOne.setState.players.length := by
  exact (turn_order_invariant sampleAfterOne sampleLeg
    reachable_sampleAfterOne (by decide)).2
    { id := 1, playerId := 1, points := 60, runningScore := 441 } (by decide)

/-- C2, evaluation of the code on a failing sequence: after addTurn,
addTurn, removeLastTurn, addTurn the current leg holds two turns whose
ids are both 1, because removeLastTurn resets the shared counter to 1
without renumbering the turns that remain. The spec asks for distinct
sequential ids. -/
theorem duplicate_turn_ids_after_undo :
    (do
      let s1 ← addTurn (startNewSet "A" "B" 501 5) 10
      let s2 ← addTurn s1.1 10
      let s3 ← removeLastTurn s2.1
      let s4 ← addTurn s3 10
      pure (s4.1.setState.currentLeg.map (fun leg => leg.turns.map Turn.id)))
    = some (some [1, 1]) := by
  decide

/-- C3: a turn that would drive the remaining score of the acting
player negative is rejected atomically: no state change at all, result
legFinished false and winner none. -/
theorem bust_rejection_atomic (e : EngineState) (leg : LegState) (cp : Player)
    (points : Int)
    (hleg : e.setState.currentLeg = some leg)
    (hget : e.setState.players.get? leg.currentPlayerIndex = some cp)
    (hneg : getRemainingScoreForPlayer leg cp.id - points < 0) :
    addTurn e points = some (e, { legFinished := false, winner := none }) := by
  by_cases hg : (e.setState.isFinished || leg.isFinished) = true
  · exact addTurn_finished e points leg hleg hg
  · exact addTurn_bust e points leg cp hleg (by revert hg; cases h2 :
      (e.setState.isFinished || leg.isFinished) <;> simp) hget hneg

/-- The second player of the sample state, extracted without forcing
the suspended name computation. -/
def samplePlayer2 : Player :=
  (sampleAfterOne.setState.players.get? 1).getD { id := 0, name := "", legsWon := 0 }

/-- Witness for C3: with 441 remaining, a throw of 502 is rejected and
the sample state is returned unchanged. -/
theorem bust_rejection_atomic_witness :
    addTurn sampleAfterOne 502
      = some (sampleAfterOne, { legFinished := false, winner := none }) := by
  exact bust_rejection_atomic sampleAfterOne sampleLeg samplePlayer2 502
    (by decide) (by decide) (by decide)

/-- C4: a turn that brings the acting player to exactly zero finishes
the leg: isFinished becomes true, the legsWon of the winner grows by
exactly one, currentPlayerIndex is not advanced, and the call returns
legFinished true with the acting player as winner. Moreover any addTurn
on a state whose current leg is already finished is a no-op, so only
one call per leg can set the flag. -/
theorem finishing_turn_spec :
    (∀ (e : EngineState) (leg : LegState) (cp : Player) (points : Int),
      e.setState.currentLeg = some leg →
      e.setState.isFinished = false →
      leg.isFinished = false →
      e.setState.players.get? leg.currentPlayerIndex = some cp →
      getRemainingScoreForPlayer leg cp.id - points = 0 →
      ∃ e' leg',
        addTurn e points = some (e',
          { legFinished := true, winner := some { cp with legsWon := cp.legsWon + 1 } }) ∧
        e'.setState.currentLeg = some leg' ∧
        leg'.isFinished = true ∧
        leg'.currentPlayerIndex = leg.currentPlayerIndex ∧
        e'.setState.players.get? leg.currentPlayerIndex
          = some { cp with legsWon := cp.legsWon + 1 }) ∧
    (∀ (e : EngineState) (leg : LegState) (points : Int),
      e.setState.currentLeg = some leg → leg.isFinished = true →
      addTurn e points = some (e, { legFinished := false, winner := none })) := by
  constructor
  · intro e leg cp points hleg hsf hlf hget hz
    have hg2 : (e.setState.isFinished || leg.isFinished) = false := by
      rw [hsf, hlf]; rfl
    have hbust : ¬ getRemainingScoreForPlayer leg cp.id - points < 0 := by omega
    have hrec := addTurnRecord_finish e points leg cp hz
    have hcall : addTurn e points = some (addTurnRecord e points leg cp) :=
      addTurn_accept e points leg cp hleg hg2 hget hbust
    have hcl : (addTurnRecord e points leg cp).1.setState.currentLeg
        = some { leg with turns := leg.turns ++ [{ id := e.nextTurnId, playerId := cp.id, points := points, runningScore := getRemainingScoreForPlayer leg cp.id - points }], isFinished := true } := by
      rw [hrec]
      simp [updateSetWinner_currentLeg]
    have hgset : (addTurnRecord e points leg cp).1.setState.players.get?
        leg.currentPlayerIndex = some { cp with legsWon := cp.legsWon + 1 } := by
      rw [hrec]
      show (updateSetWinner _).players.get? _ = _
      rw [updateSetWinner_players]
      exact get?_set_self _ _ _ (get?_lt_length _ _ _ hget)
    have hres : addTurn e points = some ((addTurnRecord e points leg cp).1,
        { legFinished := true, winner := some { cp with legsWon := cp.legsWon + 1 } }) := by
      rw [hcall, hrec]
    exact ⟨(addTurnRecord e points leg cp).1,
      { leg with turns := leg.turns ++ [{ id := e.nextTurnId, playerId := cp.id, points := points, runningScore := getRemainingScoreForPlayer leg cp.id - points }], isFinished := true },
      hres, hcl, rfl, rfl, hgset⟩
  · intro e leg points hleg hfin
    exact addTurn_finished e points leg hleg (by rw [hfin, Bool.or_true])

/-- Witness for C4: in a fresh 301 set, the opening throw of 301
finishes the leg for player 1 with one leg won and index still 0. -/
theorem finishing_turn_spec_witness :
    ∃ e' leg',
      addTurn (startNewSet "A" "B" 301 3) 301 = some (e',
        { legFinished := true, winner := some { id := 1, name := "A", legsWon := 1 } }) ∧
      e'.setState.currentLeg = some leg' ∧
      leg'.isFinished = true ∧
      leg'.currentPlayerIndex = 0 ∧
      e'.setState.players.get? 0 = some { id := 1, name := "A", legsWon := 1 } := by
  exact finishing_turn_spec.1 (startNewSet "A" "B" 301 3)
    { legNumber := 1, startingScore := 301, turns := [], isFinished := false,
      currentPlayerIndex := 0 }
    { id := 1, name := "A", legsWon := 0 } 301
    (by decide) (by decide) (by decide) (by decide) (by decide)

/-- C5: on a reachable state with an unfinished current leg and an
unfinished set, a turn that is accepted and does not finish the leg is
exactly undone by removeLastTurn: the whole SetState (turn list with
ids, points and runningScores, currentPlayerIndex, players, set fields)
is restored. Only the process-wide counter ends at 1. -/
theorem undo_roundtrip (e : EngineState) (leg : LegState) (cp : Player) (points : Int)
    (hr : Reachable e)
    (hleg : e.setState.currentLeg = some leg)
    (hsf : e.setState.isFinished = false)
    (hlf : leg.isFinished = false)
    (hget : e.setState.players.get? leg.currentPlayerIndex = some cp)
    (hpos : 0 < getRemainingScoreForPlayer leg cp.id - points) :
    ∃ e', addTurn e points = some (e', { legFinished := false, winner := none }) ∧
      removeLastTurn e' = some { setState := e.setState, nextTurnId := 1 } := by
  have hg2 : (e.setState.isFinished || leg.isFinished) = false := by
    rw [hsf, hlf]; rfl
  have hbust : ¬ getRemainingScoreForPlayer leg cp.id - points < 0 := by omega
  have hz : ¬ getRemainingScoreForPlayer leg cp.id - points = 0 := by omega
  have hcall : addTurn e points = some (addTurnRecord e points leg cp) :=
    addTurn_accept e points leg cp hleg hg2 hget hbust
  have hrec := addTurnRecord_rotate e points leg cp hz
  have hres : addTurn e points = some ((addTurnRecord e points leg cp).1,
      { legFinished := false, winner := none }) := by
    rw [hcall, hrec]
  have hreach2 : Reachable (addTurnRecord e points leg cp).1 :=
    Reachable.step e _ hr
      (Step.addTurnStep e _ points { legFinished := false, winner := none } hres)
  have hcl : (addTurnRecord e points leg cp).1.setState.currentLeg
      = some { leg with turns := leg.turns ++ [{ id := e.nextTurnId, playerId := cp.id, points := points, runningScore := getRemainingScoreForPlayer leg cp.id - points }], currentPlayerIndex := (leg.currentPlayerIndex + 1) % e.setState.players.length } := by
    rw [hrec]
  have hinv1 := (reachable_inv _ hreach2) _ hcl
  obtain ⟨leg2, heq, hnum, hstart, hfin2, hturns, hidx0, hidxlast⟩ :=
    removeLastTurn_active (addTurnRecord e points leg cp).1 _ hcl
      (by simp) hlf hinv1.2.1 hinv1.2.2.1
  simp only [List.dropLast_concat] at hturns hidx0 hidxlast
  have hordE := ((reachable_inv e hr) leg hleg).2.2.2
  have hidx2 : leg2.currentPlayerIndex = leg.currentPlayerIndex := by
    cases hcase : leg.turns.getLast? with
    | none =>
      have hnil : leg.turns = [] := List.getLast?_eq_none_iff.1 hcase
      rw [hidx0 hnil, hordE.1 hnil]
    | some tlast =>
      obtain ⟨i, hfi, hlegidx⟩ := hordE.2 tlast hcase
      obtain ⟨i2, hfi2, hlegidx2⟩ := hidxlast tlast hcase
      rw [hrec] at hfi2
      have hfi2e : findPlayerIndex e.setState.players tlast.playerId = some i2 := hfi2
      rw [hfi] at hfi2e
      injection hfi2e with hii
      have hlen2 : ((addTurnRecord e points leg cp).1).setState.players.length
          = e.setState.players.length := by
        rw [hrec]
      rw [hlegidx2, hlen2, ← hii, hlegidx, hlf]
      simp
  have hnum2 : leg2.legNumber = leg.legNumber := hnum
  have hstart2 : leg2.startingScore = leg.startingScore := hstart
  have hlegeq : leg2 = leg := by
    calc leg2 = ⟨leg2.legNumber, leg2.startingScore, leg2.turns, leg2.isFinished,
        leg2.currentPlayerIndex⟩ := rfl
      _ = ⟨leg.legNumber, leg.startingScore, leg.turns, leg.isFinished,
          leg.currentPlayerIndex⟩ := by
        rw [hnum2, hstart2, hturns, hidx2, hfin2, ← hlf]
      _ = leg := rfl
  refine ⟨(addTurnRecord e points leg cp).1, hres, ?_⟩
  rw [heq, hlegeq]
  have hS : ({ (addTurnRecord e points leg cp).1.setState with currentLeg := some leg } :
      SetState) = e.setState := by
    rw [hrec, ← hleg]
  rw [hS]

/-- Witness for C5: in the sample state, a throw of 100 by the second
player followed by removeLastTurn restores the SetState exactly. -/
theorem undo_roundtrip_witness :
    ∃ e', addTurn sampleAfterOne 100
        = some (e', { legFinished := false, winner := none }) ∧
      removeLastTurn e' = some { setState := sampleAfterOne.setState, nextTurnId := 1 } := by
  exact undo_roundtrip sampleAfterOne sampleLeg samplePlayer2 100
    reachable_sampleAfterOne (by decide) (by decide) (by decide) (by decide) (by decide)

lemma find?_first {α : Type} (q : α → Bool) (l : List α) :
    ∀ (i : Nat) (h : i < l.length),
      (∀ j (hj : j < i), q (l.get ⟨j, Nat.lt_trans hj h⟩) = false) →
      q (l.get ⟨i, h⟩) = true →
      l.find? q = some (l.get ⟨i, h⟩) := by
  induction l with
  | nil => intro i h; simp at h
  | cons a l ih =>
    intro i h hfirst hi
    match i with
    | 0 =>
      simp only [List.get] at hi
      simp [List.find?, hi]
    | Nat.succ j =>
      have h0 : q a = false := by
        have := hfirst 0 (Nat.succ_pos j)
        simpa using this
      have hlt : j < l.length := by simpa using Nat.lt_of_succ_lt_succ h
      have := ih j hlt
        (fun k hk => by
          have := hfirst (k + 1) (by omega)
          simpa using this)
        (by simpa using hi)
      simp [List.find?, h0, this]

/-- C6: updateSetWinner marks the set finished with the first player in
list order whose legsWon has reached floor(maxLegs / 2) + 1, exactly
when such a player exists; when nobody has reached that count it
changes nothing. -/
theorem updateSetWinner_spec (s : SetState) :
    (∀ i (h : i < s.players.length),
      Int.fdiv s.maxLegs 2 + 1 ≤ (s.players.get ⟨i, h⟩).legsWon →
      (∀ j (hj : j < i),
        (s.players.get ⟨j, Nat.lt_trans hj h⟩).legsWon < Int.fdiv s.maxLegs 2 + 1) →
      updateSetWinner s
        = { s with isFinished := true, winnerPlayerId := some (s.players.get ⟨i, h⟩).id }) ∧
    ((∀ p ∈ s.players, p.legsWon < Int.fdiv s.maxLegs 2 + 1) →
      updateSetWinner s = s) := by
  constructor
  · intro i h hi hfirst
    have hfind : s.players.find?
        (fun p => decide (Int.fdiv s.maxLegs 2 + 1 ≤ p.legsWon))
        = some (s.players.get ⟨i, h⟩) := by
      apply find?_first _ _ i h
      · intro j hj
        simp only [decide_eq_false_iff_not, not_le]
        exact hfirst j hj
      · simpa using hi
    unfold updateSetWinner
    rw [hfind]
  · intro hall
    have hfind : s.players.find?
        (fun p => decide (Int.fdiv s.maxLegs 2 + 1 ≤ p.legsWon)) = none := by
      rw [List.find?_eq_none]
      intro p hp
      simp only [decide_eq_true_eq, not_le]
      exact hall p hp
    unfold updateSetWinner
    rw [hfind]

/-- Witness for C6: in the sample state nobody has won a leg, so
updateSetWinner changes nothing; and a set where player 1 holds 3 of
maxLegs 5 is finished with winner 1. -/
theorem updateSetWinner_spec_witness :
    updateSetWinner sampleAfterOne.setState = sampleAfterOne.setState ∧
    updateSetWinner
        { players := [{ id := 1, name := "A", legsWon := 3 },
            { id := 2, name := "B", legsWon := 1 }], gameType := 501, maxLegs := 5,
          currentLeg := none, isFinished := false, winnerPlayerId := none }
      = { players := [{ id := 1, name := "A", legsWon := 3 },
            { id := 2, name := "B", legsWon := 1 }], gameType := 501, maxLegs := 5,
          currentLeg := none, isFinished := true, winnerPlayerId := some 1 } := by
  constructor
  · exact (updateSetWinner_spec sampleAfterOne.setState).2 (by decide)
  · exact (updateSetWinner_spec
      { players := [{ id := 1, name := "A", legsWon := 3 },
          { id := 2, name := "B", legsWon := 1 }], gameType := 501, maxLegs := 5,
        currentLeg := none, isFinished := false, winnerPlayerId := none }).1
      0 (by decide) (by decide) (by omega)

/-- C7: startNextLeg changes nothing unless the current leg exists and
is finished, the set is unfinished and the next leg number still fits
in maxLegs; in that case it installs a fresh leg numbered one higher
with the startingScore given by gameType, no turns, and index 0. -/
theorem startNextLeg_spec (e : EngineState) :
    ((∀ leg, e.setState.currentLeg = some leg →
        leg.isFinished = false ∨ e.setState.isFinished = true ∨
        e.setState.maxLegs < leg.legNumber + 1) →
      startNextLeg e = e) ∧
    (∀ leg, e.setState.currentLeg = some leg →
      leg.isFinished = true → e.setState.isFinished = false →
      leg.legNumber + 1 ≤ e.setState.maxLegs →
      startNextLeg e
        = { setState :=
              { e.setState with
                currentLeg :=
                  some { legNumber := leg.legNumber + 1,
                         startingScore := e.setState.gameType, turns := [],
                         isFinished := false, currentPlayerIndex := 0 } },
            nextTurnId := 1 }) := by
  constructor
  · intro hno
    cases hleg : e.setState.currentLeg with
    | none => simp [startNextLeg, hleg]
    | some leg =>
      rcases hno leg hleg with hcase | hcase | hcase
      · simp [startNextLeg, hleg, hcase]
      · simp [startNextLeg, hleg, hcase]
      · by_cases hg : (!leg.isFinished || e.setState.isFinished) = true
        · simp [startNextLeg, hleg, hg]
        · have hg2 : (!leg.isFinished || e.setState.isFinished) = false := by
            revert hg
            cases (!leg.isFinished || e.setState.isFinished) <;> simp
          simp [startNextLeg, hleg, hg2, hcase]
  · intro leg hleg hfin hsf hle
    have hmax : ¬ e.setState.maxLegs < leg.legNumber + 1 := by omega
    simp [startNextLeg, hleg, hfin, hsf, hmax, createNewLeg]

/-- Witness for C7: startNextLeg is a no-op on the sample state, whose
current leg is unfinished. -/
theorem startNextLeg_spec_witness :
    startNextLeg sampleAfterOne = sampleAfterOne := by
  exact (startNextLeg_spec sampleAfterOne).1
    (fun leg hleg => Or.inl (by
      have : leg = sampleLeg := by
        have h2 : some sampleLeg = some leg := by rw [← hleg]; decide
        injection h2 with h2
        exact h2.symm
      rw [this]
      decide))

/-- C8: startNewSet builds exactly two players with ids 1 and 2, zero
legs won, trimmed names with the documented fallbacks, and a first leg
numbered 1 with startingScore gameType, no turns, index 0, in an
unfinished set with no winner. -/
theorem startNewSet_spec (n1 n2 : String) (gt ml : Int) :
    (startNewSet n1 n2 gt ml).setState.players
      = [ { id := 1, name := if jsTrim n1 = "" then "Player 1" else jsTrim n1,
            legsWon := 0 },
          { id := 2, name := if jsTrim n2 = "" then "Player 2" else jsTrim n2,
            legsWon := 0 } ] ∧
    (startNewSet n1 n2 gt ml).setState.gameType = gt ∧
    (startNewSet n1 n2 gt ml).setState.maxLegs = ml ∧
    (startNewSet n1 n2 gt ml).setState.currentLeg
      = some { legNumber := 1, startingScore := gt, turns := [],
               isFinished := false, currentPlayerIndex := 0 } ∧
    (startNewSet n1 n2 gt ml).setState.isFinished = false ∧
    (startNewSet n1 n2 gt ml).setState.winnerPlayerId = none ∧
    (startNewSet "" "  Bob  " 301 3).setState.players.map Player.name
      = ["Player 1", "Bob"] :=
  ⟨rfl, rfl, rfl, rfl, rfl, rfl, by decide⟩

/-- C10: getCurrentPlayerName never fails: it returns the placeholder
when there is no current leg or when currentPlayerIndex does not index
an existing player, and the player name otherwise; on createEmptySet it
returns the placeholder. -/
theorem getCurrentPlayerName_total (s : SetState) :
    (s.currentLeg = none → getCurrentPlayerName s = "–") ∧
    (∀ leg, s.currentLeg = some leg →
      (s.players.get? leg.currentPlayerIndex = none → getCurrentPlayerName s = "–") ∧
      (∀ p, s.players.get? leg.currentPlayerIndex = some p →
        getCurrentPlayerName s = p.name)) ∧
    getCurrentPlayerName createEmptySet = "–" := by
  refine ⟨?_, ?_, by decide⟩
  · intro h
    simp [getCurrentPlayerName, h]
  · intro leg hleg
    constructor
    · intro hnone
      have h2 : s.players[leg.currentPlayerIndex]? = none := by
        rw [← List.get?_eq_getElem?]; exact hnone
      simp [getCurrentPlayerName, hleg, h2]
    · intro p hp
      have h2 : s.players[leg.currentPlayerIndex]? = some p := by
        rw [← List.get?_eq_getElem?]; exact hp
      simp [getCurrentPlayerName, hleg, h2]

/-- Witness for C10: on createEmptySet the placeholder is returned. -/
theorem getCurrentPlayerName_total_witness :
    getCurrentPlayerName createEmptySet = "–" := by
  exact (getCurrentPlayerName_total createEmptySet).1 (by decide)

end Darts
